import Mathlib

/-!
Verification of the core of `Kline2.py`: the Tongdaxin `.day` binary bar
decoder (`read_day_file`), the trading state machine (`_execute_trade` /
`_reset_trading_state` of class `TradingSimulator`), and the statistics
computations of `_show_summary` (win rate, max drawdown).

Numeric convention: Python floats are modelled as exact rationals (ℚ);
every price entering the simulator has the form `u32 / 100`, and all the
arithmetic the claims mention is exact at these magnitudes.  Python's
float floor division `//` is modelled as `Int.floor` of the exact
quotient, and raising `ZeroDivisionError` is modelled as an explicit
error value.
-/

/-- Calendar date, the result of `datetime.strptime(str(n), "%Y%m%d")`. -/
structure Date where
  y : ℕ
  m : ℕ
  d : ℕ
deriving DecidableEq, Inhabited

/-- Gregorian leap-year rule used by Python's `datetime`. -/
def leapYear (y : ℕ) : Bool :=
  (y % 4 == 0 && y % 100 != 0) || (y % 400 == 0)

/-- Number of days in a month, as validated by Python's `datetime`. -/
def daysInMonth (y m : ℕ) : ℕ :=
  if m = 2 then (if leapYear y then 29 else 28)
  else if m = 4 ∨ m = 6 ∨ m = 9 ∨ m = 11 then 30
  else 31

/-- Semantic validation performed by the `datetime` constructor. -/
def mkDate (y m d : ℕ) : Option Date :=
  if 1 ≤ y ∧ y ≤ 9999 ∧ 1 ≤ m ∧ m ≤ 12 ∧ 1 ≤ d ∧ d ≤ daysInMonth y m then
    some ⟨y, m, d⟩
  else
    none

/-- Model of `datetime.strptime(str(n), "%Y%m%d")` for a non-negative
integer `n` (the decimal string of `n` has no sign and no leading
zeros).  The `%Y` directive matches exactly four digits, `%m` and `%d`
match one or two digits greedily with regex backtracking, and the whole
string must be consumed, so only strings of 6, 7 or 8 digits can match:
8 digits split as 4+2+2, 7 digits as 4+2+1, 6 digits as 4+1+1.  The
matched numbers are then validated by the `datetime` constructor. -/
def parseDate (n : ℕ) : Option Date :=
  if n < 100000 then none
  else if n < 1000000 then mkDate (n / 100) (n / 10 % 10) (n % 10)
  else if n < 10000000 then mkDate (n / 1000) (n / 10 % 100) (n % 10)
  else if n < 100000000 then mkDate (n / 10000) (n / 100 % 100) (n % 100)
  else none

/-- One decoded daily bar (one row of the DataFrame built by
`read_day_file`): date, four prices (yuan, exact rationals), volume. -/
structure Bar where
  date : Date
  opn : ℚ
  high : ℚ
  low : ℚ
  close : ℚ
  volume : ℕ
deriving DecidableEq, Inhabited

/-- Little-endian unsigned 32-bit integer read at byte offset `off`, as
done by `struct.unpack('IIIIIfII', ...)` on the x86 platform the program
targets (native order, no padding: the record is exactly 32 bytes). -/
def u32le (buf : List ℕ) (off : ℕ) : ℕ :=
  buf.getD off 0 + 256 * buf.getD (off + 1) 0
    + 65536 * buf.getD (off + 2) 0 + 16777216 * buf.getD (off + 3) 0

/-- Decoding of the 32-byte record starting at `off`, following the body
of the loop in `read_day_file`: field 0 is the date (`strptime` of the
u32, failure aborts the decode), fields 1-4 divided by 100 are
open/high/low/close, the float field at offset 20 is ignored, the u32 at
offset 24 is the volume, and the u32 at offset 28 is ignored. -/
def decodeRecord (buf : List ℕ) (off : ℕ) : Option Bar :=
  (parseDate (u32le buf off)).map fun dt =>
    { date := dt
      opn := (u32le buf (off + 4) : ℚ) / 100
      high := (u32le buf (off + 8) : ℚ) / 100
      low := (u32le buf (off + 12) : ℚ) / 100
      close := (u32le buf (off + 16) : ℚ) / 100
      volume := u32le buf (off + 24) }

/-- Model of `read_day_file`: `num_records = len(buffer) // 32`, each
record decoded independently; a date that `strptime` rejects raises and
the whole read fails (`none`). -/
def read_day_file (buf : List ℕ) : Option (List Bar) :=
  (List.range (buf.length / 32)).mapM fun i => decodeRecord buf (32 * i)

/-- Trading action, the `action` argument of `_execute_trade`. -/
inductive TradeAction where
  | buy
  | sell
  | hold
deriving DecidableEq, Inhabited

/-- One entry of `self.trade_log` as appended by `_execute_trade`. -/
structure TradeRec where
  date : Date
  action : TradeAction
  price : ℚ
  shares : ℚ
  cash : ℚ
deriving DecidableEq, Inhabited

/-- Why an action was rejected: the early return at the end of the data,
one of the `ValueError`s raised inside `_execute_trade`, or the
`ZeroDivisionError` raised by `self.cash // price` when `price == 0`.
Every one of these leaves the simulator state untouched. -/
inductive TradeError where
  | endOfData
  | alreadyHolding
  | divisionByZero
  | noCash
  | noPosition
deriving DecidableEq, Inhabited

/-- The mutable state of `TradingSimulator` that `_execute_trade` and
`_reset_trading_state` touch.  `buy_signals` / `sell_signals` model the
pandas DataFrames indexed by date. -/
structure SimState where
  current_data : List Bar
  current_index : ℕ
  cash : ℚ
  position : ℚ
  trade_log : List TradeRec
  equity_curve : List ℚ
  buy_signals : List (Date × ℚ)
  sell_signals : List (Date × ℚ)
deriving DecidableEq, Inhabited

/-- Decidable equality of trade outcomes, for evaluating the concrete
states below. -/
instance : DecidableEq (Except TradeError SimState) := fun a b =>
  match a, b with
  | Except.ok x, Except.ok y =>
    if h : x = y then isTrue (by rw [h]) else isFalse fun hc => h (Except.ok.inj hc)
  | Except.error x, Except.error y =>
    if h : x = y then isTrue (by rw [h]) else isFalse fun hc => h (Except.error.inj hc)
  | Except.ok _, Except.error _ => isFalse fun hc => Except.noConfusion hc
  | Except.error _, Except.ok _ => isFalse fun hc => Except.noConfusion hc

/-- Model of `df.loc[date] = {'Price': price}` on a DataFrame indexed by
date: replace the row if the date is present, else append it. -/
def upsert (l : List (Date × ℚ)) (dt : Date) (p : ℚ) : List (Date × ℚ) :=
  if l.any (fun x => x.1 == dt) then
    l.map fun x => if x.1 = dt then (dt, p) else x
  else
    l ++ [(dt, p)]

/-- Initial capital, the global `INITIAL_CAPITAL = 100000`. -/
def INITIAL_CAPITAL : ℚ := 100000

/-- State after `_reset_trading_state` with session data `data`:
cursor 64, cash at the initial capital, flat position, empty log,
equity curve seeded with the initial capital, empty signal frames. -/
def initState (data : List Bar) : SimState :=
  { current_data := data
    current_index := 64
    cash := INITIAL_CAPITAL
    position := 0
    trade_log := []
    equity_curve := [INITIAL_CAPITAL]
    buy_signals := []
    sell_signals := [] }

/-- Tail of `_execute_trade` shared by every accepted action: append the
trade record (`shares` is `self.position` for a buy and `0` otherwise,
`cash` is the cash after the action), append `cash + position * price`
to the equity curve, and advance the cursor by one. -/
def recordAndAdvance (s : SimState) (a : TradeAction) (dt : Date) (price : ℚ) : SimState :=
  { s with
    trade_log := s.trade_log ++
      [{ date := dt, action := a, price := price
         shares := if a = TradeAction.buy then s.position else 0
         cash := s.cash }]
    equity_curve := s.equity_curve ++ [s.cash + s.position * price]
    current_index := s.current_index + 1 }

/-- Model of `_execute_trade`: reject at end of data; otherwise read the
bar at the cursor (`current_data.iloc[current_index]`), use its close as
the price; a buy rejects while holding, divides `cash` by the price
(raising on a zero price), rejects when fewer than one whole share is
affordable, and otherwise converts cash into `floor(cash / price)`
shares; a sell rejects while flat and otherwise converts the position
back into cash; a hold changes neither.  Every accepted action then
records and advances via `recordAndAdvance`. -/
def executeTrade (s : SimState) (a : TradeAction) : Except TradeError SimState :=
  if s.current_data.length - 1 ≤ s.current_index then
    Except.error TradeError.endOfData
  else
    let bar := s.current_data.getD s.current_index default
    let price := bar.close
    let dt := bar.date
    match a with
    | TradeAction.buy =>
      if 0 < s.position then Except.error TradeError.alreadyHolding
      else if price = 0 then Except.error TradeError.divisionByZero
      else
        let max_shares : ℚ := ((⌊s.cash / price⌋ : ℤ) : ℚ)
        if max_shares < 1 then Except.error TradeError.noCash
        else
          Except.ok (recordAndAdvance
            { s with position := max_shares
                     cash := s.cash - max_shares * price
                     buy_signals := upsert s.buy_signals dt price }
            TradeAction.buy dt price)
    | TradeAction.sell =>
      if s.position = 0 then Except.error TradeError.noPosition
      else
        Except.ok (recordAndAdvance
          { s with cash := s.cash + s.position * price
                   position := 0
                   sell_signals := upsert s.sell_signals dt price }
          TradeAction.sell dt price)
    | TradeAction.hold =>
      Except.ok (recordAndAdvance s TradeAction.hold dt price)

/-- One user action as seen from the UI: a rejected action (info box or
caught exception) leaves the state exactly as it was. -/
def step (s : SimState) (a : TradeAction) : SimState :=
  match executeTrade s a with
  | Except.ok t => t
  | Except.error _ => s

/-- Accumulator of the win-rate loop in `_show_summary`:
`win_trades`, `total_trades` and `last_buy_price` (Python `None` is
`none`). -/
structure WrAcc where
  wins : ℕ
  total : ℕ
  lastBuy : Option ℚ
deriving DecidableEq, Inhabited

/-- One iteration of the win-rate loop of `_show_summary`.  A buy sets
`last_buy_price`; a sell pairs with it only under Python's truthiness
test `last_buy_price` — that is, only when the pending price is not
`None` AND not equal to 0 — counting a win exactly when the sell price
is strictly greater, then clearing the pending price.  A sell that fails
the truthiness test changes nothing (it does not clear a pending 0). -/
def wrStep (acc : WrAcc) (r : TradeRec) : WrAcc :=
  if r.action = TradeAction.buy then
    { acc with lastBuy := some r.price }
  else if r.action = TradeAction.sell then
    match acc.lastBuy with
    | some p =>
      if p ≠ 0 then
        { wins := if p < r.price then acc.wins + 1 else acc.wins
          total := acc.total + 1
          lastBuy := none }
      else acc
    | none => acc
  else acc

/-- Win rate of `_show_summary`: wins over paired trades, `0` when there
are no paired trades. -/
def winRate (log : List TradeRec) : ℚ :=
  let acc := log.foldl wrStep ⟨0, 0, none⟩
  if 0 < acc.total then (acc.wins : ℚ) / (acc.total : ℚ) else 0

/-- Modelled from the spec's words, for comparison with `wrStep`: a buy
sets a pending entry price and the next sell always consumes it,
counting a win exactly when the sell price is strictly greater than the
paired buy price — with no condition on the value of the pending
price. -/
def wrStepSpec (acc : WrAcc) (r : TradeRec) : WrAcc :=
  if r.action = TradeAction.buy then
    { acc with lastBuy := some r.price }
  else if r.action = TradeAction.sell then
    match acc.lastBuy with
    | some p =>
      { wins := if p < r.price then acc.wins + 1 else acc.wins
        total := acc.total + 1
        lastBuy := none }
    | none => acc
  else acc

/-- Win rate as the spec describes it, built on `wrStepSpec`. -/
def winRateSpec (log : List TradeRec) : ℚ :=
  let acc := log.foldl wrStepSpec ⟨0, 0, none⟩
  if 0 < acc.total then (acc.wins : ℚ) / (acc.total : ℚ) else 0

/-- One iteration of the max-drawdown loop of `_show_summary` over the
accumulator `(peak, max_drawdown)`: raise the peak when the value
exceeds it, then compute `(peak - value) / peak`, which in Python raises
`ZeroDivisionError` when `peak == 0` — modelled as `none`. -/
def mddStep (acc : ℚ × ℚ) (value : ℚ) : Option (ℚ × ℚ) :=
  let peak := if acc.1 < value then value else acc.1
  if peak = 0 then none
  else
    some (peak,
      if acc.2 < (peak - value) / peak then (peak - value) / peak else acc.2)

/-- Max drawdown of `_show_summary`: `peak` starts at the first value of
the equity curve (the loop also revisits it), `max_drawdown` starts at
0; `none` models an uncaught `ZeroDivisionError` (or the `IndexError` of
`equity_curve[0]` on an empty curve, which cannot arise in the
program). -/
def maxDrawdown (curve : List ℚ) : Option ℚ :=
  match curve with
  | [] => none
  | c :: _ => (curve.foldlM mddStep (c, 0)).map Prod.snd

/-- Drawdown of each point of the curve against the running peak
(`(peak - value) / peak` after raising the peak), written as a list, as
the spec describes the computation. -/
def drawdowns : ℚ → List ℚ → List ℚ
  | _, [] => []
  | peak, v :: vs => (max peak v - v) / max peak v :: drawdowns (max peak v) vs

/-- Modelled from the spec's words, for comparison with `maxDrawdown`:
the maximum drawdown across the whole curve, with the running peak
starting from the first value. -/
def maxDrawdownSpec (curve : List ℚ) : ℚ :=
  match curve with
  | [] => 0
  | c :: _ => (drawdowns c curve).foldl max 0


/-- A concrete bar used by the concrete-input theorems below. -/
def wbar (c : ℚ) : Bar :=
  { date := { y := 2024, m := 1, d := 5 }, opn := 1, high := 2, low := 1,
    close := c, volume := 10 }

/-- A concrete two-bar state used by the concrete-input theorems below:
cursor on the first bar (whose close is `c`), so one more bar remains
and no action is terminal. -/
def wstate (c pos cash : ℚ) : SimState :=
  { current_data := [wbar c, wbar 1]
    current_index := 0
    cash := cash
    position := pos
    trade_log := []
    equity_curve := [100000]
    buy_signals := []
    sell_signals := [] }

/-- The trade log of the spec's win-rate example:
buy at 10, sell at 12, buy at 8, sell at 8. -/
def exampleLog : List TradeRec :=
  [{ date := { y := 2024, m := 1, d := 2 }, action := TradeAction.buy, price := 10, shares := 1, cash := 0 },
   { date := { y := 2024, m := 1, d := 3 }, action := TradeAction.sell, price := 12, shares := 0, cash := 12 },
   { date := { y := 2024, m := 1, d := 4 }, action := TradeAction.buy, price := 8, shares := 1, cash := 4 },
   { date := { y := 2024, m := 1, d := 5 }, action := TradeAction.sell, price := 8, shares := 0, cash := 12 }]

/-- A trade log holding a buy recorded at price 0 followed by a sell:
Python's truthiness test skips this pair. -/
def zeroBuyLog : List TradeRec :=
  [{ date := { y := 2024, m := 1, d := 2 }, action := TradeAction.buy, price := 0, shares := 1, cash := 0 },
   { date := { y := 2024, m := 1, d := 3 }, action := TradeAction.sell, price := 5, shares := 0, cash := 5 }]

/-- Resulting state of a buy from `wstate 1 0 105` (close 1, cash 105):
105 shares, cash 0. -/
def w2out : SimState :=
  { current_data := [wbar 1, wbar 1]
    current_index := 1
    cash := 0
    position := 105
    trade_log := [{ date := { y := 2024, m := 1, d := 5 }, action := TradeAction.buy,
                    price := 1, shares := 105, cash := 0 }]
    equity_curve := [100000, 105]
    buy_signals := [({ y := 2024, m := 1, d := 5 }, 1)]
    sell_signals := [] }

/-- Resulting state of a hold from `wstate 1 0 105`. -/
def w7out : SimState :=
  { current_data := [wbar 1, wbar 1]
    current_index := 1
    cash := 105
    position := 0
    trade_log := [{ date := { y := 2024, m := 1, d := 5 }, action := TradeAction.hold,
                    price := 1, shares := 0, cash := 105 }]
    equity_curve := [100000, 105]
    buy_signals := []
    sell_signals := [] }

/-- Resulting state of a hold from `wstate 1 5 20` (holding 5 shares). -/
def w9out : SimState :=
  { current_data := [wbar 1, wbar 1]
    current_index := 1
    cash := 20
    position := 5
    trade_log := [{ date := { y := 2024, m := 1, d := 5 }, action := TradeAction.hold,
                    price := 1, shares := 0, cash := 20 }]
    equity_curve := [100000, 25]
    buy_signals := []
    sell_signals := [] }

lemma mapM_option_congr {α β : Type} {f g : α → Option β} :
    ∀ l : List α, (∀ a ∈ l, f a = g a) → l.mapM f = l.mapM g := by
  intro l
  induction l with
  | nil => intro _; rfl
  | cons a l ih =>
    intro h
    rw [List.mapM_cons, List.mapM_cons, h a (List.mem_cons_self a l),
      ih fun b hb => h b (List.mem_cons_of_mem a hb)]

lemma mapM_option_eq_map {α β : Type} {f : α → Option β} {g : α → β} :
    ∀ l : List α, (∀ a ∈ l, f a = some (g a)) → l.mapM f = some (l.map g) := by
  intro l
  induction l with
  | nil => intro _; rfl
  | cons a l ih =>
    intro h
    rw [List.mapM_cons, h a (List.mem_cons_self a l),
      ih fun b hb => h b (List.mem_cons_of_mem a hb)]
    rfl

lemma getD_take (l : List ℕ) (N j : ℕ) (h : j < N) :
    (l.take N).getD j 0 = l.getD j 0 := by
  rw [List.getD_eq_getElem?_getD, List.getD_eq_getElem?_getD,
    List.getElem?_take_of_lt h]

lemma u32le_take (buf : List ℕ) (N off : ℕ) (h : off + 3 < N) :
    u32le (buf.take N) off = u32le buf off := by
  unfold u32le
  rw [getD_take _ _ _ (by omega), getD_take _ _ _ (by omega),
    getD_take _ _ _ (by omega), getD_take _ _ _ (by omega)]

lemma decodeRecord_take (buf : List ℕ) (N off : ℕ) (h : off + 31 < N) :
    decodeRecord (buf.take N) off = decodeRecord buf off := by
  unfold decodeRecord
  rw [u32le_take _ _ _ (by omega), u32le_take _ _ _ (by omega),
    u32le_take _ _ _ (by omega), u32le_take _ _ _ (by omega),
    u32le_take _ _ _ (by omega), u32le_take _ _ _ (by omega)]

lemma parseDate_eight (n : ℕ) (h1 : 10000000 ≤ n) (h2 : n < 100000000)
    (h3 : (parseDate n).isSome = true) :
    parseDate n = some ⟨n / 10000, n / 100 % 100, n % 100⟩ := by
  unfold parseDate at h3 ⊢
  rw [if_neg (by omega), if_neg (by omega), if_neg (by omega), if_pos h2] at h3 ⊢
  unfold mkDate at h3 ⊢
  split at h3
  · rw [if_pos (by assumption)]
  · simp at h3

/-- C1: for a buffer whose length is `32 * k` and whose `k` date fields
are valid 8-digit `YYYYMMDD` values, the decoder maps the `i`-th 32-byte
record to one bar: the first 4-byte unsigned integer parsed as the
8-digit date, the next four 4-byte unsigned integers divided by 100
giving open, high, low, close in that order, the 4-byte float field at
offset 20 ignored, and of the last two 4-byte unsigned integers the
first (offset 24) taken as volume and the second (offset 28) ignored. -/
theorem decoder_record_layout (buf : List ℕ) (k : ℕ) (hlen : buf.length = 32 * k)
    (hd : ∀ i, i < k → 10000000 ≤ u32le buf (32 * i) ∧
      u32le buf (32 * i) < 100000000 ∧ (parseDate (u32le buf (32 * i))).isSome = true) :
    read_day_file buf = some ((List.range k).map fun i =>
      { date := { y := u32le buf (32 * i) / 10000,
                  m := u32le buf (32 * i) / 100 % 100,
                  d := u32le buf (32 * i) % 100 }
        opn := (u32le buf (32 * i + 4) : ℚ) / 100
        high := (u32le buf (32 * i + 8) : ℚ) / 100
        low := (u32le buf (32 * i + 12) : ℚ) / 100
        close := (u32le buf (32 * i + 16) : ℚ) / 100
        volume := u32le buf (32 * i + 24) }) := by
  unfold read_day_file
  rw [hlen, Nat.mul_div_cancel_left _ (by norm_num)]
  apply mapM_option_eq_map
  intro i hi
  rw [List.mem_range] at hi
  obtain ⟨h1, h2, h3⟩ := hd i hi
  unfold decodeRecord
  rw [parseDate_eight _ h1 h2 h3]
  rfl

/-- C1 witness: a concrete one-record buffer (date 2024-01-05, prices
1.23 / 2.00 / 0.50 / 1.50, volume 77) decodes as the layout states. -/
theorem decoder_record_layout_witness :
    ([233, 214, 52, 1, 123, 0, 0, 0, 200, 0, 0, 0, 50, 0, 0, 0,
      150, 0, 0, 0, 9, 9, 9, 9, 77, 0, 0, 0, 5, 5, 5, 5] : List ℕ).length = 32 * 1 ∧
    read_day_file [233, 214, 52, 1, 123, 0, 0, 0, 200, 0, 0, 0, 50, 0, 0, 0,
      150, 0, 0, 0, 9, 9, 9, 9, 77, 0, 0, 0, 5, 5, 5, 5] =
      some ((List.range 1).map fun i =>
      { date := { y := u32le [233, 214, 52, 1, 123, 0, 0, 0, 200, 0, 0, 0, 50, 0, 0, 0,
                    150, 0, 0, 0, 9, 9, 9, 9, 77, 0, 0, 0, 5, 5, 5, 5] (32 * i) / 10000,
                  m := u32le [233, 214, 52, 1, 123, 0, 0, 0, 200, 0, 0, 0, 50, 0, 0, 0,
                    150, 0, 0, 0, 9, 9, 9, 9, 77, 0, 0, 0, 5, 5, 5, 5] (32 * i) / 100 % 100,
                  d := u32le [233, 214, 52, 1, 123, 0, 0, 0, 200, 0, 0, 0, 50, 0, 0, 0,
                    150, 0, 0, 0, 9, 9, 9, 9, 77, 0, 0, 0, 5, 5, 5, 5] (32 * i) % 100 }
        opn := (u32le [233, 214, 52, 1, 123, 0, 0, 0, 200, 0, 0, 0, 50, 0, 0, 0,
          150, 0, 0, 0, 9, 9, 9, 9, 77, 0, 0, 0, 5, 5, 5, 5] (32 * i + 4) : ℚ) / 100
        high := (u32le [233, 214, 52, 1, 123, 0, 0, 0, 200, 0, 0, 0, 50, 0, 0, 0,
          150, 0, 0, 0, 9, 9, 9, 9, 77, 0, 0, 0, 5, 5, 5, 5] (32 * i + 8) : ℚ) / 100
        low := (u32le [233, 214, 52, 1, 123, 0, 0, 0, 200, 0, 0, 0, 50, 0, 0, 0,
          150, 0, 0, 0, 9, 9, 9, 9, 77, 0, 0, 0, 5, 5, 5, 5] (32 * i + 12) : ℚ) / 100
        close := (u32le [233, 214, 52, 1, 123, 0, 0, 0, 200, 0, 0, 0, 50, 0, 0, 0,
          150, 0, 0, 0, 9, 9, 9, 9, 77, 0, 0, 0, 5, 5, 5, 5] (32 * i + 16) : ℚ) / 100
        volume := u32le [233, 214, 52, 1, 123, 0, 0, 0, 200, 0, 0, 0, 50, 0, 0, 0,
          150, 0, 0, 0, 9, 9, 9, 9, 77, 0, 0, 0, 5, 5, 5, 5] (32 * i + 24) }) :=
  ⟨rfl, decoder_record_layout _ 1 rfl (by decide)⟩

/-- C6: decoding any buffer produces exactly the same result as decoding
the buffer truncated to its longest multiple-of-32 prefix; a trailing
partial record is silently dropped and never causes an error. -/
theorem trailing_partial_record_ignored (buf : List ℕ) :
    read_day_file buf = read_day_file (buf.take (32 * (buf.length / 32))) := by
  unfold read_day_file
  have hN : 32 * (buf.length / 32) ≤ buf.length := Nat.mul_div_le buf.length 32
  have hlen : (buf.take (32 * (buf.length / 32))).length = 32 * (buf.length / 32) := by
    rw [List.length_take]
    omega
  rw [hlen, Nat.mul_div_cancel_left _ (by norm_num : 0 < 32)]
  apply mapM_option_congr
  intro i hi
  rw [List.mem_range] at hi
  rw [decodeRecord_take _ _ _ (by omega)]

lemma executeTrade_buy_ok {s t : SimState}
    (h : executeTrade s TradeAction.buy = Except.ok t) :
    ¬ (s.current_data.length - 1 ≤ s.current_index)
    ∧ ¬ 0 < s.position
    ∧ (s.current_data.getD s.current_index default).close ≠ 0
    ∧ ¬ (((⌊s.cash / (s.current_data.getD s.current_index default).close⌋ : ℤ) : ℚ) < 1)
    ∧ t = recordAndAdvance
        { s with
          position := ((⌊s.cash / (s.current_data.getD s.current_index default).close⌋ : ℤ) : ℚ)
          cash := s.cash - ((⌊s.cash / (s.current_data.getD s.current_index default).close⌋ : ℤ) : ℚ)
            * (s.current_data.getD s.current_index default).close
          buy_signals := upsert s.buy_signals (s.current_data.getD s.current_index default).date
            (s.current_data.getD s.current_index default).close }
        TradeAction.buy (s.current_data.getD s.current_index default).date
        (s.current_data.getD s.current_index default).close := by
  simp only [executeTrade] at h
  split at h
  · exact Except.noConfusion h
  · split at h
    · exact Except.noConfusion h
    · split at h
      · exact Except.noConfusion h
      · split at h
        · exact Except.noConfusion h
        · injection h with h
          exact ⟨by assumption, by assumption, by assumption, by assumption, h.symm⟩

lemma executeTrade_sell_ok {s t : SimState}
    (h : executeTrade s TradeAction.sell = Except.ok t) :
    ¬ (s.current_data.length - 1 ≤ s.current_index)
    ∧ s.position ≠ 0
    ∧ t = recordAndAdvance
        { s with
          cash := s.cash + s.position * (s.current_data.getD s.current_index default).close
          position := 0
          sell_signals := upsert s.sell_signals (s.current_data.getD s.current_index default).date
            (s.current_data.getD s.current_index default).close }
        TradeAction.sell (s.current_data.getD s.current_index default).date
        (s.current_data.getD s.current_index default).close := by
  simp only [executeTrade] at h
  split at h
  · exact Except.noConfusion h
  · split at h
    · exact Except.noConfusion h
    · injection h with h
      exact ⟨by assumption, by assumption, h.symm⟩

lemma executeTrade_hold_ok {s t : SimState}
    (h : executeTrade s TradeAction.hold = Except.ok t) :
    ¬ (s.current_data.length - 1 ≤ s.current_index)
    ∧ t = recordAndAdvance s TradeAction.hold
        (s.current_data.getD s.current_index default).date
        (s.current_data.getD s.current_index default).close := by
  simp only [executeTrade] at h
  split at h
  · exact Except.noConfusion h
  · injection h with h
    exact ⟨by assumption, h.symm⟩

/-- C2: a buy accepted from a flat position (`position == 0`) at the
current close `p` sets the position to `floor(cash / p)`, conserves
`cash + position * p` exactly (the whole-share remainder stays in cash),
and leaves total equity `cash + position * p` unchanged across the
buy. -/
theorem buy_floor_and_equity (s t : SimState) (hpos : s.position = 0)
    (h : executeTrade s TradeAction.buy = Except.ok t) :
    t.position = ((⌊s.cash / (s.current_data.getD s.current_index default).close⌋ : ℤ) : ℚ)
    ∧ t.cash + t.position * (s.current_data.getD s.current_index default).close = s.cash
    ∧ t.cash + t.position * (s.current_data.getD s.current_index default).close
        = s.cash + s.position * (s.current_data.getD s.current_index default).close := by
  obtain ⟨-, -, -, -, ht⟩ := executeTrade_buy_ok h
  subst ht
  exact ⟨rfl, by simp [recordAndAdvance], by simp [recordAndAdvance, hpos]⟩

/-- C10: with a flat position, a non-terminal cursor and a current close
of 0, a buy reaches `self.cash // price` and fails with a
division-by-zero error (not the insufficient-cash rejection), and the
surrounding handler leaves the whole state unchanged. -/
theorem buy_zero_price_div_error (s : SimState)
    (hterm : ¬ (s.current_data.length - 1 ≤ s.current_index))
    (hpos : s.position = 0)
    (hp : (s.current_data.getD s.current_index default).close = 0) :
    executeTrade s TradeAction.buy = Except.error TradeError.divisionByZero
    ∧ step s TradeAction.buy = s := by
  have he : executeTrade s TradeAction.buy = Except.error TradeError.divisionByZero := by
    simp only [executeTrade]
    rw [if_neg hterm, hpos, if_neg (lt_irrefl (0 : ℚ)), hp, if_pos rfl]
  exact ⟨he, by simp [step, he]⟩

/-- C5: every rejected action — a buy while holding, a buy affording
fewer than one whole share, a sell while flat, and any action once the
cursor has reached session length − 1 — leaves cash, position, the trade
log, the equity curve, the signal frames and the cursor all unchanged. -/
theorem rejected_action_state_unchanged (s : SimState) (a : TradeAction)
    (h : s.current_data.length - 1 ≤ s.current_index
      ∨ (a = TradeAction.buy ∧ 0 < s.position)
      ∨ (a = TradeAction.buy ∧ (⌊s.cash / (s.current_data.getD s.current_index default).close⌋ : ℤ) < 1)
      ∨ (a = TradeAction.sell ∧ s.position = 0)) :
    step s a = s := by
  have herr : ∃ e, executeTrade s a = Except.error e := by
    rcases h with hterm | ⟨ha, hp⟩ | ⟨ha, hc⟩ | ⟨ha, hp⟩
    · exact ⟨TradeError.endOfData, by simp only [executeTrade, if_pos hterm]⟩
    · subst ha
      by_cases hterm : s.current_data.length - 1 ≤ s.current_index
      · exact ⟨TradeError.endOfData, by simp only [executeTrade, if_pos hterm]⟩
      · exact ⟨TradeError.alreadyHolding,
          by simp only [executeTrade, if_neg hterm, if_pos hp]⟩
    · subst ha
      by_cases hterm : s.current_data.length - 1 ≤ s.current_index
      · exact ⟨TradeError.endOfData, by simp only [executeTrade, if_pos hterm]⟩
      · by_cases hp : 0 < s.position
        · exact ⟨TradeError.alreadyHolding,
            by simp only [executeTrade, if_neg hterm, if_pos hp]⟩
        · by_cases hz : (s.current_data.getD s.current_index default).close = 0
          · exact ⟨TradeError.divisionByZero,
              by simp only [executeTrade, if_neg hterm, if_neg hp, if_pos hz]⟩
          · have hc1 : ((⌊s.cash / (s.current_data.getD s.current_index default).close⌋ : ℤ) : ℚ) < 1 := by
              exact_mod_cast hc
            exact ⟨TradeError.noCash,
              by simp only [executeTrade, if_neg hterm, if_neg hp, if_neg hz, if_pos hc1]⟩
    · subst ha
      by_cases hterm : s.current_data.length - 1 ≤ s.current_index
      · exact ⟨TradeError.endOfData, by simp only [executeTrade, if_pos hterm]⟩
      · exact ⟨TradeError.noPosition,
          by simp only [executeTrade, if_neg hterm, if_pos hp]⟩
  obtain ⟨e, he⟩ := herr
  simp [step, he]

/-- C7: every accepted action appends exactly one trade record whose
price and date are those of the bar at the current cursor index — never
of a later bar — and advances the cursor by one. -/
theorem trade_uses_cursor_bar (s t : SimState) (a : TradeAction)
    (h : executeTrade s a = Except.ok t) :
    (∃ r, t.trade_log = s.trade_log ++ [r]
      ∧ r.price = (s.current_data.getD s.current_index default).close
      ∧ r.date = (s.current_data.getD s.current_index default).date)
    ∧ t.current_index = s.current_index + 1 := by
  cases a with
  | buy =>
    obtain ⟨-, -, -, -, ht⟩ := executeTrade_buy_ok h
    subst ht
    exact ⟨⟨_, rfl, rfl, rfl⟩, rfl⟩
  | sell =>
    obtain ⟨-, -, ht⟩ := executeTrade_sell_ok h
    subst ht
    exact ⟨⟨_, rfl, rfl, rfl⟩, rfl⟩
  | hold =>
    obtain ⟨-, ht⟩ := executeTrade_hold_ok h
    subst ht
    exact ⟨⟨_, rfl, rfl, rfl⟩, rfl⟩

lemma getD_mem_of_lt {α : Type} [Inhabited α] :
    ∀ (l : List α) (n : ℕ), n < l.length → l.getD n default ∈ l := by
  intro l
  induction l with
  | nil => intro n h; exact absurd h (by simp)
  | cons a l ih =>
    intro n h
    cases n with
    | zero => exact List.mem_cons_self a l
    | succ n =>
      exact List.mem_cons_of_mem a (ih n (by simpa using h))

lemma step_preserves_nonneg (s : SimState) (a : TradeAction)
    (hc : 0 ≤ s.cash) (hp : 0 ≤ s.position)
    (hd : ∀ b ∈ s.current_data, 0 ≤ b.close) :
    0 ≤ (step s a).cash ∧ 0 ≤ (step s a).position
      ∧ (step s a).current_data = s.current_data := by
  cases hex : executeTrade s a with
  | error e =>
    simp only [step, hex]
    exact ⟨hc, hp, by trivial⟩
  | ok t =>
    simp only [step, hex]
    cases a with
    | buy =>
      obtain ⟨hterm, -, hz, hms, ht⟩ := executeTrade_buy_ok hex
      subst ht
      have hidx : s.current_index < s.current_data.length := by omega
      have hpc : 0 ≤ (s.current_data.getD s.current_index default).close :=
        hd _ (getD_mem_of_lt _ _ hidx)
      have hppos : 0 < (s.current_data.getD s.current_index default).close :=
        lt_of_le_of_ne hpc (Ne.symm hz)
      have h1le : (1 : ℚ) ≤ ((⌊s.cash / (s.current_data.getD s.current_index default).close⌋ : ℤ) : ℚ) :=
        not_lt.mp hms
      refine ⟨?_, ?_, rfl⟩
      · show 0 ≤ s.cash - ((⌊s.cash / (s.current_data.getD s.current_index default).close⌋ : ℤ) : ℚ)
          * (s.current_data.getD s.current_index default).close
        have hfl : ((⌊s.cash / (s.current_data.getD s.current_index default).close⌋ : ℤ) : ℚ)
            ≤ s.cash / (s.current_data.getD s.current_index default).close :=
          Int.floor_le _
        have := mul_le_mul_of_nonneg_right hfl hpc
        rw [div_mul_cancel₀ _ hz] at this
        linarith
      · show (0 : ℚ) ≤ ((⌊s.cash / (s.current_data.getD s.current_index default).close⌋ : ℤ) : ℚ)
        linarith
    | sell =>
      obtain ⟨hterm, -, ht⟩ := executeTrade_sell_ok hex
      subst ht
      have hidx : s.current_index < s.current_data.length := by omega
      have hpc : 0 ≤ (s.current_data.getD s.current_index default).close :=
        hd _ (getD_mem_of_lt _ _ hidx)
      refine ⟨?_, le_refl 0, rfl⟩
      show 0 ≤ s.cash + s.position * (s.current_data.getD s.current_index default).close
      have := mul_nonneg hp hpc
      linarith
    | hold =>
      obtain ⟨-, ht⟩ := executeTrade_hold_ok hex
      subst ht
      exact ⟨hc, hp, rfl⟩

lemma foldl_step_preserves_nonneg (actions : List TradeAction) :
    ∀ s : SimState, 0 ≤ s.cash → 0 ≤ s.position →
      (∀ b ∈ s.current_data, 0 ≤ b.close) →
      0 ≤ (actions.foldl step s).cash := by
  induction actions with
  | nil => intro s hc _ _; exact hc
  | cons a as ih =>
    intro s hc hp hd
    obtain ⟨hc2, hp2, hdata⟩ := step_preserves_nonneg s a hc hp hd
    have hd2 : ∀ b ∈ (step s a).current_data, 0 ≤ b.close := by
      rw [hdata]; exact hd
    exact ih (step s a) hc2 hp2 hd2

/-- C8: starting from the reset state (cash `INITIAL_CAPITAL`, flat
position) over any session data whose closes are non-negative, cash is
non-negative after every sequence of buy, sell and hold actions: a buy
removes at most `floor(cash / price) * price`, a sell only adds
`position * price`, and a hold leaves cash unchanged. -/
theorem cash_nonneg_invariant (data : List Bar) (actions : List TradeAction)
    (hd : ∀ b ∈ data, 0 ≤ b.close) :
    0 ≤ (actions.foldl step (initState data)).cash :=
  foldl_step_preserves_nonneg actions (initState data)
    (by norm_num [initState, INITIAL_CAPITAL]) (le_refl 0) hd

/-- C8 witness: the invariant applied to the two-bar session of `wstate`
with one buy, one sell and one hold. -/
theorem cash_nonneg_invariant_witness :
    (∀ b ∈ (wstate 10 0 105).current_data, 0 ≤ b.close)
    ∧ 0 ≤ (([TradeAction.buy, TradeAction.sell, TradeAction.hold].foldl step
        (initState (wstate 10 0 105).current_data)).cash) :=
  ⟨by decide, cash_nonneg_invariant (wstate 10 0 105).current_data
    [TradeAction.buy, TradeAction.sell, TradeAction.hold] (by decide)⟩

lemma exec_buy_w2 : executeTrade (wstate 1 0 105) TradeAction.buy = Except.ok w2out := by
  norm_num [executeTrade, wstate, wbar, recordAndAdvance, upsert, w2out]

lemma exec_hold_w7 : executeTrade (wstate 1 0 105) TradeAction.hold = Except.ok w7out := by
  norm_num [executeTrade, wstate, wbar, recordAndAdvance, w7out]

lemma exec_hold_w9 : executeTrade (wstate 1 5 20) TradeAction.hold = Except.ok w9out := by
  norm_num [executeTrade, wstate, wbar, recordAndAdvance, w9out]
  decide

/-- C2 witness: buying with cash 105 at close 1 yields 105 shares and
cash 0, conserving the 105 exactly. -/
theorem buy_floor_and_equity_witness :
    (wstate 1 0 105).position = 0
    ∧ executeTrade (wstate 1 0 105) TradeAction.buy = Except.ok w2out
    ∧ (w2out.position
        = ((⌊(wstate 1 0 105).cash
            / ((wstate 1 0 105).current_data.getD (wstate 1 0 105).current_index default).close⌋ : ℤ) : ℚ)
      ∧ w2out.cash + w2out.position
          * ((wstate 1 0 105).current_data.getD (wstate 1 0 105).current_index default).close
          = (wstate 1 0 105).cash
      ∧ w2out.cash + w2out.position
          * ((wstate 1 0 105).current_data.getD (wstate 1 0 105).current_index default).close
          = (wstate 1 0 105).cash + (wstate 1 0 105).position
          * ((wstate 1 0 105).current_data.getD (wstate 1 0 105).current_index default).close) :=
  ⟨rfl, exec_buy_w2, buy_floor_and_equity (wstate 1 0 105) w2out rfl exec_buy_w2⟩

/-- C10 witness: the zero-price buy rejection at a concrete state. -/
theorem buy_zero_price_div_error_witness :
    (¬ ((wstate 0 0 100).current_data.length - 1 ≤ (wstate 0 0 100).current_index)
      ∧ (wstate 0 0 100).position = 0
      ∧ ((wstate 0 0 100).current_data.getD (wstate 0 0 100).current_index default).close = 0)
    ∧ (executeTrade (wstate 0 0 100) TradeAction.buy = Except.error TradeError.divisionByZero
      ∧ step (wstate 0 0 100) TradeAction.buy = wstate 0 0 100) :=
  ⟨⟨by decide, rfl, rfl⟩, buy_zero_price_div_error (wstate 0 0 100) (by decide) rfl rfl⟩

/-- C5 witness: a hold attempted on an empty (hence terminal) session
leaves the state unchanged. -/
theorem rejected_action_state_unchanged_witness :
    ((initState []).current_data.length - 1 ≤ (initState []).current_index
      ∨ (TradeAction.hold = TradeAction.buy ∧ 0 < (initState []).position)
      ∨ (TradeAction.hold = TradeAction.buy
          ∧ (⌊(initState []).cash
              / ((initState []).current_data.getD (initState []).current_index default).close⌋ : ℤ) < 1)
      ∨ (TradeAction.hold = TradeAction.sell ∧ (initState []).position = 0))
    ∧ step (initState []) TradeAction.hold = initState [] :=
  ⟨Or.inl (by decide),
    rejected_action_state_unchanged (initState []) TradeAction.hold (Or.inl (by decide))⟩

/-- C7 witness: an accepted hold records the close and date of the bar
at the cursor and advances the cursor. -/
theorem trade_uses_cursor_bar_witness :
    executeTrade (wstate 1 0 105) TradeAction.hold = Except.ok w7out
    ∧ ((∃ r, w7out.trade_log = (wstate 1 0 105).trade_log ++ [r]
        ∧ r.price = ((wstate 1 0 105).current_data.getD (wstate 1 0 105).current_index default).close
        ∧ r.date = ((wstate 1 0 105).current_data.getD (wstate 1 0 105).current_index default).date)
      ∧ w7out.current_index = (wstate 1 0 105).current_index + 1) :=
  ⟨exec_hold_w7, trade_uses_cursor_bar (wstate 1 0 105) w7out TradeAction.hold exec_hold_w7⟩

/-- C9 counterexample: a hold accepted while holding 5 shares appends a
record whose `shares` field is 0, not the resulting position 5 — the
code stores `self.position if action == 'buy' else 0`. -/
theorem hold_record_shares_counterexample :
    executeTrade (wstate 1 5 20) TradeAction.hold = Except.ok w9out
    ∧ w9out.position = 5
    ∧ (w9out.trade_log.getLastD default).shares = 0
    ∧ ¬ (w9out.trade_log.getLastD default).shares = w9out.position :=
  ⟨exec_hold_w9, rfl, rfl, by norm_num [w9out]⟩

/-- C9 amended: every accepted action appends one record whose `cash`
field is the resulting cash; its `shares` field equals the resulting
position for a buy (the purchased shares) and for a sell (0, the flat
position), but is 0 for a hold even when a position is held. -/
theorem trade_record_fields_amended (s t : SimState) (a : TradeAction)
    (h : executeTrade s a = Except.ok t) :
    ∃ r, t.trade_log = s.trade_log ++ [r]
      ∧ r.cash = t.cash
      ∧ (a = TradeAction.buy → r.shares = t.position)
      ∧ (a = TradeAction.sell → r.shares = t.position ∧ r.shares = 0)
      ∧ (a = TradeAction.hold → r.shares = 0) := by
  cases a with
  | buy =>
    obtain ⟨-, -, -, -, ht⟩ := executeTrade_buy_ok h
    subst ht
    refine ⟨_, rfl, rfl, ?_, ?_, ?_⟩
    · intro _
      simp [recordAndAdvance]
    · intro hc
      exact absurd hc (by decide)
    · intro hc
      exact absurd hc (by decide)
  | sell =>
    obtain ⟨-, -, ht⟩ := executeTrade_sell_ok h
    subst ht
    refine ⟨_, rfl, rfl, ?_, ?_, ?_⟩
    · intro hc
      exact absurd hc (by decide)
    · intro _
      exact ⟨by simp [recordAndAdvance], by simp [recordAndAdvance]⟩
    · intro hc
      exact absurd hc (by decide)
  | hold =>
    obtain ⟨-, ht⟩ := executeTrade_hold_ok h
    subst ht
    refine ⟨_, rfl, rfl, ?_, ?_, ?_⟩
    · intro hc
      exact absurd hc (by decide)
    · intro hc
      exact absurd hc (by decide)
    · intro _
      simp [recordAndAdvance]

/-- C9 amended witness: the amended record shape at a concrete accepted
buy. -/
theorem trade_record_fields_amended_witness :
    executeTrade (wstate 1 0 105) TradeAction.buy = Except.ok w2out
    ∧ ∃ r, w2out.trade_log = (wstate 1 0 105).trade_log ++ [r]
      ∧ r.cash = w2out.cash
      ∧ (TradeAction.buy = TradeAction.buy → r.shares = w2out.position)
      ∧ (TradeAction.buy = TradeAction.sell
          → r.shares = w2out.position ∧ r.shares = 0)
      ∧ (TradeAction.buy = TradeAction.hold → r.shares = 0) :=
  ⟨exec_buy_w2, trade_record_fields_amended (wstate 1 0 105) w2out TradeAction.buy exec_buy_w2⟩

lemma wr_fold_eq : ∀ (log : List TradeRec) (acc : WrAcc),
    (∀ p, acc.lastBuy = some p → p ≠ 0) →
    (∀ r ∈ log, r.action = TradeAction.buy → r.price ≠ 0) →
    log.foldl wrStep acc = log.foldl wrStepSpec acc := by
  intro log
  induction log with
  | nil => intro acc _ _; rfl
  | cons r rs ih =>
    intro acc hacc hlog
    have hr : r.action = TradeAction.buy → r.price ≠ 0 :=
      hlog r (List.mem_cons_self r rs)
    have hrs : ∀ x ∈ rs, x.action = TradeAction.buy → x.price ≠ 0 :=
      fun x hx => hlog x (List.mem_cons_of_mem r hx)
    rw [List.foldl_cons, List.foldl_cons]
    by_cases hb : r.action = TradeAction.buy
    · have hstep : wrStep acc r = wrStepSpec acc r := by
        simp [wrStep, wrStepSpec, hb]
      rw [hstep]
      refine ih (wrStepSpec acc r) ?_ hrs
      intro p hp
      simp only [wrStepSpec, hb, if_pos] at hp
      rw [Option.some.injEq] at hp
      rw [← hp]
      exact hr hb
    · by_cases hs : r.action = TradeAction.sell
      · cases hlb : acc.lastBuy with
        | none =>
          have h1 : wrStep acc r = acc := by simp [wrStep, hb, hs, hlb]
          have h2 : wrStepSpec acc r = acc := by simp [wrStepSpec, hb, hs, hlb]
          rw [h1, h2]
          refine ih acc ?_ hrs
          intro p hp
          rw [hlb] at hp
          exact absurd hp (by simp)
        | some p =>
          have hpne : p ≠ 0 := hacc p hlb
          have h1 : wrStep acc r
              = { wins := if p < r.price then acc.wins + 1 else acc.wins
                  total := acc.total + 1, lastBuy := none } := by
            simp [wrStep, hb, hs, hlb, hpne]
          have h2 : wrStepSpec acc r
              = { wins := if p < r.price then acc.wins + 1 else acc.wins
                  total := acc.total + 1, lastBuy := none } := by
            simp [wrStepSpec, hb, hs, hlb]
          rw [h1, h2]
          refine ih _ ?_ hrs
          intro q hq
          exact absurd hq (by simp)
      · have h1 : wrStep acc r = acc := by simp [wrStep, hb, hs]
        have h2 : wrStepSpec acc r = acc := by simp [wrStepSpec, hb, hs]
        rw [h1, h2]
        exact ih acc hacc hrs

/-- C3 counterexample: on the log [buy at price 0, sell at 5] the code
pairs nothing (Python's `and last_buy_price` is false for the price 0)
and returns win rate 0, while the claimed pairing rule pairs the sell
with the buy and returns 1. -/
theorem win_rate_truthiness_counterexample :
    winRate zeroBuyLog = 0 ∧ winRateSpec zeroBuyLog = 1
    ∧ ¬ winRate zeroBuyLog = winRateSpec zeroBuyLog := by
  refine ⟨?_, ?_, ?_⟩ <;>
    norm_num +decide [winRate, winRateSpec, wrStep, wrStepSpec, zeroBuyLog]

/-- C3 amended: over any trade log in which every buy record carries a
nonzero price (true of every log the simulator produces, since a buy at
price 0 raises before being recorded), the win-rate computation pairs
each sell with its immediately preceding unconsumed buy, counts a win
exactly when the sell price is strictly greater, and returns wins over
pairs; a sell following a buy recorded at price exactly 0 is not paired
and does not clear the pending buy.  The rate is 0 when there are zero
pairs, and the log [buy at 10, sell at 12, buy at 8, sell at 8] yields
1/2. -/
theorem win_rate_pairing_amended :
    (∀ log : List TradeRec,
      (∀ r ∈ log, r.action = TradeAction.buy → r.price ≠ 0) →
      winRate log = winRateSpec log)
    ∧ (∀ log : List TradeRec,
        (log.foldl wrStep ⟨0, 0, none⟩).total = 0 → winRate log = 0)
    ∧ winRate exampleLog = 1 / 2 := by
  refine ⟨?_, ?_, ?_⟩
  · intro log hlog
    unfold winRate winRateSpec
    rw [wr_fold_eq log ⟨0, 0, none⟩ (fun p hp => absurd hp (by simp)) hlog]
  · intro log h
    simp [winRate, h]
  · norm_num +decide [winRate, wrStep, exampleLog]

/-- C3 amended witness: the spec's four-trade example satisfies the
nonzero-buy-price hypothesis and the two win rates agree on it. -/
theorem win_rate_pairing_amended_witness :
    (∀ r ∈ exampleLog, r.action = TradeAction.buy → r.price ≠ 0)
    ∧ winRate exampleLog = winRateSpec exampleLog :=
  ⟨by norm_num [exampleLog], win_rate_pairing_amended.1 exampleLog (by norm_num [exampleLog])⟩

lemma if_lt_eq_max (a b : ℚ) : (if a < b then b else a) = max a b := by
  rcases lt_or_le a b with h | h
  · rw [if_pos h, max_eq_right (le_of_lt h)]
  · rw [if_neg (not_lt.mpr h), max_eq_left h]

lemma mddStep_fold : ∀ (vs : List ℚ) (peak m : ℚ), 0 < peak →
    ∃ q, 0 < q ∧ vs.foldlM mddStep (peak, m)
      = some (q, (drawdowns peak vs).foldl max m) := by
  intro vs
  induction vs with
  | nil => intro peak m h; exact ⟨peak, h, rfl⟩
  | cons v vs ih =>
    intro peak m h
    have hpk : 0 < max peak v := lt_of_lt_of_le h (le_max_left _ _)
    have hstep : mddStep (peak, m) v
        = some (max peak v, max m ((max peak v - v) / max peak v)) := by
      simp only [mddStep]
      rw [if_lt_eq_max, if_neg (ne_of_gt hpk), if_lt_eq_max]
    obtain ⟨q, hq, hrest⟩ :=
      ih (max peak v) (max m ((max peak v - v) / max peak v)) hpk
    refine ⟨q, hq, ?_⟩
    simp only [List.foldlM, hstep, Option.bind]
    exact hrest

lemma drawdowns_zero_of_chain : ∀ (cs : List ℚ) (c peak : ℚ), peak ≤ c →
    List.Chain (· ≤ ·) c cs → ∀ x ∈ drawdowns peak (c :: cs), x = 0 := by
  intro cs
  induction cs with
  | nil =>
    intro c peak hpc _ x hx
    simp [drawdowns, max_eq_right hpc, sub_self, zero_div] at hx
    exact hx
  | cons v vs ih =>
    intro c peak hpc hchain x hx
    rw [List.chain_cons] at hchain
    simp only [drawdowns, max_eq_right hpc] at hx
    rw [List.mem_cons] at hx
    rcases hx with hx | hx
    · rw [hx, sub_self, zero_div]
    · exact ih v c hchain.1 hchain.2 x hx

lemma foldl_max_zeros : ∀ l : List ℚ, (∀ x ∈ l, x = 0) → l.foldl max 0 = 0 := by
  intro l
  induction l with
  | nil => intro _; rfl
  | cons a l ih =>
    intro h
    rw [List.foldl_cons, h a (List.mem_cons_self a l), max_self]
    exact ih fun x hx => h x (List.mem_cons_of_mem a hx)

/-- C4 counterexample: the one-element equity curve [0] is monotonically
non-decreasing, but the computation divides by the zero peak and raises
a `ZeroDivisionError` instead of returning the drawdown 0 that the
claimed formula gives. -/
theorem max_drawdown_zero_curve_counterexample :
    maxDrawdown [(0 : ℚ)] = none
    ∧ maxDrawdownSpec [(0 : ℚ)] = 0
    ∧ ¬ maxDrawdown [(0 : ℚ)] = some (maxDrawdownSpec [(0 : ℚ)]) := by
  refine ⟨?_, ?_, ?_⟩ <;>
    norm_num +decide [maxDrawdown, mddStep, List.foldlM, maxDrawdownSpec, drawdowns]

/-- C4 amended: over any equity curve whose first value is positive
(true of every curve the program produces, which starts at the initial
capital), the computation tracks the running peak from the first value,
takes the drawdown `(peak - value) / peak` at each point (0 when the
value is at or above the peak so far), and returns the maximum drawdown
over the whole curve; the result is 0 for a monotonically non-decreasing
curve, and the curve [100000, 110000, 95000, 105000] yields
15000/110000.  When the running peak is 0 the loop instead raises a
division-by-zero error. -/
theorem max_drawdown_amended (c : ℚ) (cs : List ℚ) (hc : 0 < c) :
    maxDrawdown (c :: cs) = some (maxDrawdownSpec (c :: cs))
    ∧ (List.Chain (· ≤ ·) c cs → maxDrawdown (c :: cs) = some 0)
    ∧ maxDrawdown [100000, 110000, 95000, 105000] = some (15000 / 110000) := by
  obtain ⟨q, hq, heq⟩ := mddStep_fold (c :: cs) c 0 hc
  refine ⟨?_, ?_, ?_⟩
  · show ((c :: cs).foldlM mddStep (c, 0)).map Prod.snd = some (maxDrawdownSpec (c :: cs))
    rw [heq]
    rfl
  · intro hchain
    show ((c :: cs).foldlM mddStep (c, 0)).map Prod.snd = some 0
    rw [heq]
    have hz : ∀ x ∈ drawdowns c (c :: cs), x = 0 :=
      drawdowns_zero_of_chain cs c c (le_refl c) hchain
    simp [foldl_max_zeros _ hz]
  · norm_num [maxDrawdown, mddStep, List.foldlM]

/-- C4 amended witness: the amended statement applied to the spec's
example curve, whose first value 100000 is positive. -/
theorem max_drawdown_amended_witness :
    (0 : ℚ) < 100000
    ∧ (maxDrawdown ((100000 : ℚ) :: [110000, 95000, 105000])
        = some (maxDrawdownSpec ((100000 : ℚ) :: [110000, 95000, 105000]))
      ∧ (List.Chain (· ≤ ·) (100000 : ℚ) [110000, 95000, 105000]
          → maxDrawdown ((100000 : ℚ) :: [110000, 95000, 105000]) = some 0)
      ∧ maxDrawdown [100000, 110000, 95000, 105000] = some (15000 / 110000)) :=
  ⟨by norm_num, max_drawdown_amended 100000 [110000, 95000, 105000] (by norm_num)⟩
